import Mathlib

/-!
Verification development for the ExeTera core subset
(`exetera/core/fields.py`, `exetera/core/dataframe.py`,
`exetera/core/field_importers.py`).

Strings are modelled as their encoded byte sequences (`List Nat`), numeric
cells as `Int`.  The backing storage collaborator is the hierarchical
key/attribute store of spec section 6; `DataWriter.write` (in
`exetera/core/data_writer.py`, which is not part of the sources here) is
modelled from the spec as appending the first `n` staged elements to the
named one-dimensional array, and `DataWriter.flush` as a storage flush with
no effect on array contents.
-/

/-- Python exception classes that the modelled code can raise. -/
inductive PyErr where
  | keyError
  | valueError
  | typeError
  | permissionError
  | indexError
  | stateError
  deriving DecidableEq, Repr

/-- Offset sequence of a list of byte strings, starting from accumulator `a`:
`offsetsFrom a [s1, s2] = [a, a + |s1|, a + |s1| + |s2|]`. -/
def offsetsFrom (a : Nat) : List (List Nat) → List Nat
  | [] => [a]
  | s :: ss => a :: offsetsFrom (a + s.length) ss

/-- The offset array described in spec section 3 for a row list: `N + 1`
offsets with `offsets[0] = 0`. -/
def offsets (ss : List (List Nat)) : List Nat := offsetsFrom 0 ss

theorem offsetsFrom_ne_nil (a : Nat) (ss : List (List Nat)) : offsetsFrom a ss ≠ [] := by
  cases ss <;> simp [offsetsFrom]

theorem length_offsetsFrom (a : Nat) (ss : List (List Nat)) :
    (offsetsFrom a ss).length = ss.length + 1 := by
  induction ss generalizing a with
  | nil => simp [offsetsFrom]
  | cons s ss ih => simp [offsetsFrom, ih]

theorem head?_offsetsFrom (a : Nat) (ss : List (List Nat)) :
    (offsetsFrom a ss).head? = some a := by
  cases ss <;> simp [offsetsFrom]

theorem offsetsFrom_snoc (a : Nat) (ss : List (List Nat)) (s : List Nat) :
    offsetsFrom a (ss ++ [s]) = offsetsFrom a ss ++ [a + ss.flatten.length + s.length] := by
  induction ss generalizing a with
  | nil => simp [offsetsFrom]
  | cons t ss ih =>
    simp only [List.cons_append, offsetsFrom, List.flatten_cons, List.length_append]
    rw [show ss.append [s] = ss ++ [s] from rfl, ih]
    have hn : a + t.length + ss.flatten.length + s.length
        = a + (t.length + ss.flatten.length) + s.length := by omega
    rw [hn]

theorem getLast?_offsetsFrom (a : Nat) (ss : List (List Nat)) :
    (offsetsFrom a ss).getLast? = some (a + ss.flatten.length) := by
  induction ss generalizing a with
  | nil => simp [offsetsFrom]
  | cons s ss ih =>
    simp only [offsetsFrom, List.flatten_cons, List.length_append]
    rw [List.getLast?_cons, ih]
    simp [offsetsFrom_ne_nil, Nat.add_assoc]

theorem chain'_offsetsFrom (a : Nat) (ss : List (List Nat)) :
    List.Chain' (· ≤ ·) (offsetsFrom a ss) := by
  induction ss generalizing a with
  | nil => simp [offsetsFrom]
  | cons s ss ih =>
    simp only [offsetsFrom]
    refine List.chain'_cons'.mpr ⟨?_, ih (a + s.length)⟩
    intro y hy
    rw [head?_offsetsFrom] at hy
    cases hy
    omega

theorem getD_offsetsFrom (a : Nat) (ss : List (List Nat)) (i : Nat) (h : i ≤ ss.length) :
    (offsetsFrom a ss).getD i 0 = a + (ss.take i).flatten.length := by
  induction ss generalizing a i with
  | nil =>
    have hi : i = 0 := Nat.le_zero.mp (by simpa using h)
    subst hi
    simp [offsetsFrom]
  | cons s ss ih =>
    cases i with
    | zero => simp [offsetsFrom]
    | succ j =>
      simp only [offsetsFrom, List.getD_cons_succ, List.take_succ_cons, List.flatten_cons,
        List.length_append]
      rw [ih (a + s.length) j (by simpa using h)]
      omega

theorem tail_offsets (ss : List (List Nat)) :
    offsets ss = 0 :: (offsets ss).tail := by
  cases ss <;> simp [offsets, offsetsFrom]

namespace WIFA

/-- State of `WriteableIndexedFieldArray` (fields.py lines 203-300): the two
persisted datasets, the two staging buffers (only their live prefixes are
kept), and the accumulated byte offset.  `chunksize` is the buffer
capacity. -/
structure State where
  chunksize : Nat
  index_ds : List Nat
  values_ds : List Nat
  raw_values : List Nat
  raw_indices : List Nat
  accumulated : Nat
  deriving DecidableEq, Repr

/-- Fresh writable array over a field created by
`indexed_string_field_constructor` (fields.py lines 319-323): both datasets
are written empty, so `accumulated` starts at 0 (fields.py line 213). -/
def init (cs : Nat) : State :=
  { chunksize := cs, index_ds := [], values_ds := [], raw_values := [],
    raw_indices := [], accumulated := 0 }

/-- Flush of the staged value bytes to the `values` dataset
(`DataWriter.write(self._field, self._values_name, self._raw_values,
self._value_index)`). -/
def flushValues (st : State) : State :=
  { st with values_ds := st.values_ds ++ st.raw_values, raw_values := [] }

/-- One iteration of the inner byte loop of `write_part` (fields.py lines
268-275): stage the byte, flush a full buffer, then bump `accumulated`. -/
def writeByte (st : State) (v : Nat) : State :=
  let st1 := { st with raw_values := st.raw_values ++ [v] }
  let st2 := if st1.raw_values.length = st1.chunksize then flushValues st1 else st1
  { st2 with accumulated := st2.accumulated + 1 }

/-- Flush of the staged offsets to the `index` dataset, writing the leading
`[0]` first when the `index` dataset is still empty (fields.py lines
279-282 and 296-299). -/
def flushIndices (st : State) : State :=
  { st with
      index_ds := (if st.index_ds.isEmpty then [0] else st.index_ds) ++ st.raw_indices,
      raw_indices := [] }

/-- The per-string tail of the `write_part` loop (fields.py lines 276-283):
stage the running offset and flush a full index buffer, writing the leading
`[0]` first when the `index` dataset is still empty. -/
def pushIndex (st : State) : State :=
  let st1 := { st with raw_indices := st.raw_indices ++ [st.accumulated] }
  if st1.raw_indices.length = st1.chunksize then
    { st1 with
        index_ds := (if st1.index_ds.isEmpty then [0] else st1.index_ds) ++ st1.raw_indices,
        raw_indices := [] }
  else st1

/-- Processing of one incoming string by `write_part`. -/
def writeString (st : State) (s : List Nat) : State :=
  pushIndex (s.foldl writeByte st)

/-- `WriteableIndexedFieldArray.write_part` (fields.py lines 265-283). -/
def write_part (st : State) (part : List (List Nat)) : State :=
  part.foldl writeString st

/-- `WriteableIndexedFieldArray.complete` (fields.py lines 290-300): flush the
partial value buffer, then the partial index buffer (again prepending `[0]`
if the `index` dataset is still empty). -/
def complete (st : State) : State :=
  let st1 := if st.raw_values.length ≠ 0 then flushValues st else st
  if st1.raw_indices.length ≠ 0 then flushIndices st1 else st1

/-- One call on the writable array: either a `write_part` with a list of
strings, or a `complete`. -/
inductive Op where
  | wp : List (List Nat) → Op
  | cp : Op

def runOp (st : State) : Op → State
  | .wp p => write_part st p
  | .cp => complete st

/-- Run a sequence of `write_part` / `complete` calls. -/
def run (st : State) (ops : List Op) : State :=
  ops.foldl runOp st

/-- All strings written across a call sequence, in order. -/
def opStrings : List Op → List (List Nat)
  | [] => []
  | .wp p :: r => p ++ opStrings r
  | .cp :: r => opStrings r

end WIFA

/-- Integer-index read of one row (`ReadOnlyIndexedFieldArray.__getitem__`,
fields.py lines 170-177): out-of-range rows raise (`none`); otherwise the
row is `values[indices[item] : indices[item + 1]]`, with `start == stop`
short-circuiting to the empty string. -/
def readRow (ids vals : List Nat) (i : Nat) : Option (List Nat) :=
  if i + 1 < ids.length then
    let start := ids.getD i 0
    let stop := ids.getD (i + 1) 0
    if start = stop then some [] else some ((vals.drop start).take (stop - start))
  else none

namespace WIFA

/-- The writer invariant tying a `WriteableIndexedFieldArray` state to the
list `ss` of strings written since creation: the persisted `values` dataset
plus the staged bytes are the concatenation of all strings, `accumulated`
counts every byte, both buffers are strictly below capacity, and the
persisted `index` dataset plus the staged offsets form the offset array of
`ss` (minus the leading `0` while the `index` dataset is still empty, since
the code writes that `0` lazily at the first index flush). -/
structure Inv (cs : Nat) (ss : List (List Nat)) (st : State) : Prop where
  hcs : st.chunksize = cs
  hv : st.values_ds ++ st.raw_values = ss.flatten
  hacc : st.accumulated = ss.flatten.length
  hrv : st.raw_values.length < cs
  hri : st.raw_indices.length < cs
  hidx : st.index_ds ++ st.raw_indices
      = (if st.index_ds.isEmpty then (offsets ss).tail else offsets ss)
  hnil : ss = [] → st.index_ds = []

theorem init_inv (cs : Nat) (hcs : 1  ≤ cs) : Inv cs [] (init cs) := by
  refine ⟨rfl, rfl, rfl, hcs, hcs, ?_, fun _ => rfl⟩
  simp [init, offsets, offsetsFrom]

theorem writeByte_full {st : State} (v : Nat) (h : st.raw_values.length + 1 = st.chunksize) :
    writeByte st v = { st with values_ds := st.values_ds ++ (st.raw_values ++ [v]),
                               raw_values := [],
                               accumulated := st.accumulated + 1 } := by
  simp [writeByte, flushValues, h]

theorem writeByte_not_full {st : State} (v : Nat) (h : st.raw_values.length + 1 ≠ st.chunksize) :
    writeByte st v = { st with raw_values := st.raw_values ++ [v],
                               accumulated := st.accumulated + 1 } := by
  simp [writeByte, flushValues, h]

theorem writeByte_spec (st : State) (v : Nat) (hcs : 1 ≤ st.chunksize)
    (hrv : st.raw_values.length < st.chunksize) :
    (writeByte st v).chunksize = st.chunksize ∧
    (writeByte st v).values_ds ++ (writeByte st v).raw_values
      = st.values_ds ++ st.raw_values ++ [v] ∧
    (writeByte st v).raw_values.length < st.chunksize ∧
    (writeByte st v).accumulated = st.accumulated + 1 ∧
    (writeByte st v).index_ds = st.index_ds ∧
    (writeByte st v).raw_indices = st.raw_indices := by
  by_cases h : st.raw_values.length + 1 = st.chunksize
  · rw [writeByte_full v h]
    exact ⟨rfl, by simp, by simpa using hcs, rfl, rfl, rfl⟩
  · rw [writeByte_not_full v h]
    refine ⟨rfl, by simp, ?_, rfl, rfl, rfl⟩
    simp only [List.length_append, List.length_cons, List.length_nil, Nat.zero_add]
    omega

theorem foldl_writeByte_spec (s : List Nat) :
    ∀ st : State, 1 ≤ st.chunksize → st.raw_values.length < st.chunksize →
    ((s.foldl writeByte st).chunksize = st.chunksize ∧
     (s.foldl writeByte st).values_ds ++ (s.foldl writeByte st).raw_values
       = st.values_ds ++ st.raw_values ++ s ∧
     (s.foldl writeByte st).raw_values.length < st.chunksize ∧
     (s.foldl writeByte st).accumulated = st.accumulated + s.length ∧
     (s.foldl writeByte st).index_ds = st.index_ds ∧
     (s.foldl writeByte st).raw_indices = st.raw_indices) := by
  induction s with
  | nil =>
    intro st _ hrv
    exact ⟨rfl, by simp, hrv, rfl, rfl, rfl⟩
  | cons v s ih =>
    intro st hcs hrv
    obtain ⟨h1, h2, h3, h4, h5, h6⟩ := writeByte_spec st v hcs hrv
    obtain ⟨g1, g2, g3, g4, g5, g6⟩ :=
      ih (writeByte st v) (by rw [h1]; exact hcs) (by rw [h1]; exact h3)
    simp only [List.foldl_cons]
    refine ⟨g1.trans h1, ?_, by rw [← h1]; exact g3, ?_, g5.trans h5, g6.trans h6⟩
    · rw [g2, h2]
      simp
    · rw [g4, h4]
      simp only [List.length_cons]
      omega

theorem pushIndex_full {st : State} (h : st.raw_indices.length + 1 = st.chunksize) :
    pushIndex st = { st with
      index_ds := (if st.index_ds.isEmpty then [0] else st.index_ds)
        ++ (st.raw_indices ++ [st.accumulated]),
      raw_indices := [] } := by
  simp [pushIndex, h]

theorem pushIndex_not_full {st : State} (h : st.raw_indices.length + 1 ≠ st.chunksize) :
    pushIndex st = { st with raw_indices := st.raw_indices ++ [st.accumulated] } := by
  simp [pushIndex, h]

theorem offsets_snoc (ss : List (List Nat)) (s : List Nat) :
    offsets (ss ++ [s]) = offsets ss ++ [ss.flatten.length + s.length] := by
  simpa [offsets] using offsetsFrom_snoc 0 ss s

theorem writeString_inv {cs : Nat} {ss : List (List Nat)} {st : State} (s : List Nat)
    (hone : 1 ≤ cs) (h : Inv cs ss st) : Inv cs (ss ++ [s]) (writeString st s) := by
  obtain ⟨h1, h2, h3, h4, h5, h6, h7⟩ := h
  obtain ⟨g1, g2, g3, g4, g5, g6⟩ :=
    foldl_writeByte_spec s st (by rw [h1]; exact hone) (by rw [h1]; exact h4)
  have hflat : (ss ++ [s]).flatten = ss.flatten ++ s := by simp
  have hoffs := offsets_snoc ss s
  unfold writeString
  by_cases hfull :
      (s.foldl writeByte st).raw_indices.length + 1 = (s.foldl writeByte st).chunksize
  · rw [pushIndex_full hfull]
    refine ⟨?_, ?_, ?_, ?_, ?_, ?_, by simp⟩
    · show (s.foldl writeByte st).chunksize = cs
      rw [g1, h1]
    · show (s.foldl writeByte st).values_ds ++ (s.foldl writeByte st).raw_values
        = (ss ++ [s]).flatten
      rw [g2, h2, hflat]
    · show (s.foldl writeByte st).accumulated = (ss ++ [s]).flatten.length
      rw [g4, h3, hflat]
      simp
    · show (s.foldl writeByte st).raw_values.length < cs
      rw [← h1]
      exact g3
    · show ([] : List Nat).length < cs
      simpa using hone
    · show ((if (s.foldl writeByte st).index_ds.isEmpty then [0]
          else (s.foldl writeByte st).index_ds)
            ++ ((s.foldl writeByte st).raw_indices
                ++ [(s.foldl writeByte st).accumulated])) ++ ([] : List Nat)
        = if ((if (s.foldl writeByte st).index_ds.isEmpty then [0]
            else (s.foldl writeByte st).index_ds)
              ++ ((s.foldl writeByte st).raw_indices
                  ++ [(s.foldl writeByte st).accumulated])).isEmpty
          then (offsets (ss ++ [s])).tail else offsets (ss ++ [s])
      rw [List.append_nil, g5, g6, g4, h3]
      by_cases hids : st.index_ds = []
      · have h6' : st.raw_indices = (offsets ss).tail := by simpa [hids] using h6
        have key : ([0] : List Nat) ++ (st.raw_indices ++ [ss.flatten.length + s.length])
            = offsets (ss ++ [s]) := by
          rw [h6', hoffs]
          conv_rhs => rw [tail_offsets ss]
          simp
        simp only [hids, List.isEmpty_nil, if_pos rfl, ite_true, key]
        have : (offsets (ss ++ [s])).isEmpty = false := by
          have := offsetsFrom_ne_nil 0 (ss ++ [s])
          simpa [offsets, List.isEmpty_iff] using this
        simp [this]
      · have h6' : st.index_ds ++ st.raw_indices = offsets ss := by
          simpa [List.isEmpty_iff, hids] using h6
        have hemp : st.index_ds.isEmpty = false := by simpa [List.isEmpty_iff] using hids
        have key : st.index_ds ++ (st.raw_indices ++ [ss.flatten.length + s.length])
            = offsets (ss ++ [s]) := by
          rw [← List.append_assoc, h6', hoffs]
        simp only [hemp, Bool.false_eq_true, if_neg, ite_false, key]
        have : (offsets (ss ++ [s])).isEmpty = false := by
          have := offsetsFrom_ne_nil 0 (ss ++ [s])
          simpa [offsets, List.isEmpty_iff] using this
        simp [this]
  · rw [pushIndex_not_full hfull]
    refine ⟨?_, ?_, ?_, ?_, ?_, ?_, by simp⟩
    · show (s.foldl writeByte st).chunksize = cs
      rw [g1, h1]
    · show (s.foldl writeByte st).values_ds ++ (s.foldl writeByte st).raw_values
        = (ss ++ [s]).flatten
      rw [g2, h2, hflat]
    · show (s.foldl writeByte st).accumulated = (ss ++ [s]).flatten.length
      rw [g4, h3, hflat]
      simp
    · show (s.foldl writeByte st).raw_values.length < cs
      rw [← h1]
      exact g3
    · show ((s.foldl writeByte st).raw_indices
          ++ [(s.foldl writeByte st).accumulated]).length < cs
      rw [g6]
      simp only [List.length_append, List.length_cons, List.length_nil, Nat.zero_add]
      rw [g6, g1, h1] at hfull
      omega
    · show (s.foldl writeByte st).index_ds
          ++ ((s.foldl writeByte st).raw_indices ++ [(s.foldl writeByte st).accumulated])
        = if (s.foldl writeByte st).index_ds.isEmpty
          then (offsets (ss ++ [s])).tail else offsets (ss ++ [s])
      rw [g5, g6, g4, h3]
      by_cases hids : st.index_ds = []
      · have h6' : st.raw_indices = (offsets ss).tail := by simpa [hids] using h6
        rw [hoffs]
        conv_rhs => rw [tail_offsets ss]
        simp [hids, h6']
      · have h6' : st.index_ds ++ st.raw_indices = offsets ss := by
          simpa [List.isEmpty_iff, hids] using h6
        have hemp : st.index_ds.isEmpty = false := by simpa [List.isEmpty_iff] using hids
        simp only [hemp, Bool.false_eq_true, if_neg, ite_false, hoffs,
          ← List.append_assoc, h6']

theorem write_part_inv {cs : Nat} (part : List (List Nat)) :
    ∀ {ss : List (List Nat)} {st : State}, 1 ≤ cs → Inv cs ss st →
      Inv cs (ss ++ part) (write_part st part) := by
  induction part with
  | nil =>
    intro ss st _ h
    simpa [write_part] using h
  | cons p rest ih =>
    intro ss st hone h
    have h1 := writeString_inv p hone h
    have h2 := ih hone h1
    simpa [write_part, List.append_assoc] using h2


theorem complete_eq_both {st : State} (hv : st.raw_values.length ≠ 0)
    (hi : st.raw_indices.length ≠ 0) :
    complete st = flushIndices (flushValues st) := by
  simp [complete, flushValues, hv, hi]

theorem complete_eq_vals {st : State} (hv : st.raw_values.length ≠ 0)
    (hi : st.raw_indices.length = 0) :
    complete st = flushValues st := by
  simp [complete, flushValues, hv, hi]

theorem complete_eq_inds {st : State} (hv : st.raw_values.length = 0)
    (hi : st.raw_indices.length ≠ 0) :
    complete st = flushIndices st := by
  simp [complete, hv, hi]

theorem complete_eq_id {st : State} (hv : st.raw_values.length = 0)
    (hi : st.raw_indices.length = 0) :
    complete st = st := by
  simp [complete, hv, hi]

theorem flushIndices_idx {ss : List (List Nat)} {st : State}
    (h6 : st.index_ds ++ st.raw_indices
        = (if st.index_ds.isEmpty then (offsets ss).tail else offsets ss))
    (h7 : ss = [] → st.index_ds = [])
    (hi : st.raw_indices.length ≠ 0) :
    (flushIndices st).index_ds = offsets ss ∧ ss ≠ [] := by
  by_cases hids : st.index_ds = []
  · have h6' : st.raw_indices = (offsets ss).tail := by simpa [hids] using h6
    constructor
    · show (if st.index_ds.isEmpty then [0] else st.index_ds) ++ st.raw_indices = offsets ss
      rw [hids]
      simp only [List.isEmpty_nil, ite_true]
      rw [h6']
      conv_rhs => rw [tail_offsets ss]
      simp
    · intro hss
      rw [hss] at h6'
      simp [offsets, offsetsFrom] at h6'
      exact hi (by simp [h6'])
  · have hemp : st.index_ds.isEmpty = false := by simpa [List.isEmpty_iff] using hids
    have h6' : st.index_ds ++ st.raw_indices = offsets ss := by simpa [hemp] using h6
    constructor
    · show (if st.index_ds.isEmpty then [0] else st.index_ds) ++ st.raw_indices = offsets ss
      rw [hemp]
      simpa using h6'
    · intro hss
      exact absurd (h7 hss) hids

theorem offsets_isEmpty (ss : List (List Nat)) : (offsets ss).isEmpty = false := by
  simpa [List.isEmpty_iff] using offsetsFrom_ne_nil 0 ss

theorem complete_final {cs : Nat} {ss : List (List Nat)} {st : State}
    (hone : 1 ≤ cs) (h : Inv cs ss st) :
    (complete st).chunksize = cs ∧
    (complete st).values_ds = ss.flatten ∧
    (complete st).raw_values = [] ∧
    (complete st).raw_indices = [] ∧
    (complete st).accumulated = ss.flatten.length ∧
    (complete st).index_ds = (if ss = [] then [] else offsets ss) := by
  obtain ⟨h1, h2, h3, h4, h5, h6, h7⟩ := h
  by_cases hv0 : st.raw_values.length = 0
  · have hvnil : st.raw_values = [] := List.length_eq_zero.mp hv0
    by_cases hi0 : st.raw_indices.length = 0
    · rw [complete_eq_id hv0 hi0]
      have hinil : st.raw_indices = [] := List.length_eq_zero.mp hi0
      refine ⟨h1, by simpa [hvnil] using h2, hvnil, hinil, h3, ?_⟩
      by_cases hids : st.index_ds = []
      · have h6' : ([] : List Nat) = (offsets ss).tail := by
          simpa [hids, hinil] using h6
        have hss : ss = [] := by
          have := length_offsetsFrom 0 ss
          have htl : (offsets ss).tail.length = 0 := by rw [← h6']; rfl
          rcases ss with _ | ⟨t, ts⟩
          · rfl
          · exfalso
            simp [offsets, offsetsFrom, length_offsetsFrom] at htl
        simp [hss, hids]
      · have hemp : st.index_ds.isEmpty = false := by simpa [List.isEmpty_iff] using hids
        have h6' : st.index_ds = offsets ss := by simpa [hemp, hinil] using h6
        have hss : ss ≠ [] := fun hss => absurd (h7 hss) hids
        simp [hss, h6']
    · rw [complete_eq_inds hv0 hi0]
      obtain ⟨hidx, hss⟩ := flushIndices_idx h6 h7 hi0
      refine ⟨h1, by simpa [hvnil] using h2, hvnil, rfl, h3, ?_⟩
      simp [hss, hidx]
  · by_cases hi0 : st.raw_indices.length = 0
    · rw [complete_eq_vals hv0 hi0]
      have hinil : st.raw_indices = [] := List.length_eq_zero.mp hi0
      refine ⟨h1, by simpa using h2, rfl, hinil, h3, ?_⟩
      by_cases hids : st.index_ds = []
      · have h6' : ([] : List Nat) = (offsets ss).tail := by
          simpa [hids, hinil] using h6
        have hss : ss = [] := by
          rcases ss with _ | ⟨t, ts⟩
          · rfl
          · exfalso
            have htl : (offsets (t :: ts)).tail.length = 0 := by rw [← h6']; rfl
            simp [offsets, offsetsFrom, length_offsetsFrom] at htl
        simp [flushValues, hss, hids]
      · have hemp : st.index_ds.isEmpty = false := by simpa [List.isEmpty_iff] using hids
        have h6' : st.index_ds = offsets ss := by simpa [hemp, hinil] using h6
        have hss : ss ≠ [] := fun hss => absurd (h7 hss) hids
        simp [flushValues, hss, h6']
    · rw [complete_eq_both hv0 hi0]
      obtain ⟨hidx, hss⟩ := @flushIndices_idx ss (flushValues st) h6 h7 hi0
      refine ⟨h1, by simpa using h2, rfl, rfl, h3, ?_⟩
      simp only [hss, ite_false]
      exact hidx

theorem complete_inv {cs : Nat} {ss : List (List Nat)} {st : State}
    (hone : 1 ≤ cs) (h : Inv cs ss st) : Inv cs ss (complete st) := by
  obtain ⟨f1, f2, f3, f4, f5, f6⟩ := complete_final hone h
  refine ⟨f1, by rw [f2, f3]; simp, f5, by rw [f3]; simpa using hone,
    by rw [f4]; simpa using hone, ?_, ?_⟩
  · rw [f4, f6, List.append_nil]
    by_cases hss : ss = []
    · simp [hss, offsets, offsetsFrom]
    · simp [hss, offsets_isEmpty]
  · intro hss
    rw [f6]
    simp [hss]

theorem run_inv {cs : Nat} (ops : List Op) :
    ∀ {ss : List (List Nat)} {st : State}, 1 ≤ cs → Inv cs ss st →
      Inv cs (ss ++ opStrings ops) (run st ops) := by
  induction ops with
  | nil =>
    intro ss st _ h
    simpa [run, opStrings] using h
  | cons op rest ih =>
    intro ss st hone h
    cases op with
    | wp p =>
      have h1 := write_part_inv p hone h
      have h2 := ih hone h1
      simpa [run, runOp, opStrings, List.append_assoc] using h2
    | cp =>
      have h1 := complete_inv hone h
      have h2 := ih hone h1
      simpa [run, runOp, opStrings] using h2

/-- After any call sequence ending in `complete`, the persisted datasets are
fully determined by the strings written: `values` is their concatenation and
`index` is their offset array (or empty if nothing was ever written). -/
theorem run_complete_spec (cs : Nat) (hone : 1 ≤ cs) (ops : List Op) :
    (complete (run (init cs) ops)).values_ds = (opStrings ops).flatten ∧
    (complete (run (init cs) ops)).index_ds
      = (if opStrings ops = [] then [] else offsets (opStrings ops)) ∧
    (complete (run (init cs) ops)).raw_values = [] ∧
    (complete (run (init cs) ops)).raw_indices = [] ∧
    (complete (run (init cs) ops)).chunksize = cs ∧
    (complete (run (init cs) ops)).accumulated = (opStrings ops).flatten.length := by
  have h := run_inv ops hone (init_inv cs hone)
  have h' : Inv cs (opStrings ops) (run (init cs) ops) := by simpa using h
  obtain ⟨f1, f2, f3, f4, f5, f6⟩ := complete_final hone h'
  exact ⟨f2, f6, f3, f4, f1, f5⟩

theorem foldl_write_part_eq_run (parts : List (List (List Nat))) :
    ∀ st : State, parts.foldl write_part st = run st (parts.map Op.wp) := by
  induction parts with
  | nil => intro st; rfl
  | cons p ps ih =>
    intro st
    simp only [List.foldl_cons, List.map_cons, run, List.foldl_cons]
    exact ih (write_part st p)

theorem opStrings_map_wp (parts : List (List (List Nat))) :
    opStrings (parts.map Op.wp) = parts.flatten := by
  induction parts with
  | nil => rfl
  | cons p ps ih => simp [opStrings, ih]

end WIFA

/-- Reading row `i` of a well-formed indexed pair (`indices = offsets ss`,
`values = ss.flatten`) returns exactly the `i`-th written string. -/
theorem readRow_offsets (ss : List (List Nat)) (i : Nat) (hi : i < ss.length) :
    readRow (offsets ss) ss.flatten i = some (ss.getD i []) := by
  have hlen : (offsets ss).length = ss.length + 1 := length_offsetsFrom 0 ss
  have hlt : i + 1 < (offsets ss).length := by omega
  have hstart : (offsets ss).getD i 0 = (ss.take i).flatten.length := by
    simpa [offsets] using getD_offsetsFrom 0 ss i (Nat.le_of_lt hi)
  have htake : ss.take (i + 1) = ss.take i ++ [ss.getD i []] := by
    rw [List.take_succ]
    congr 1
    rw [List.getElem?_eq_getElem hi]
    simp [List.getD_eq_getElem?_getD, List.getElem?_eq_getElem hi]
  have hstop : (offsets ss).getD (i + 1) 0
      = (ss.take i).flatten.length + (ss.getD i []).length := by
    have h := getD_offsetsFrom 0 ss (i + 1) (by omega)
    rw [htake] at h
    simpa [offsets] using h
  have hsub : ss.flatten.drop ((ss.take i).flatten.length)
      = ss.getD i [] ++ (ss.drop (i + 1)).flatten := by
    have hsplit : ss.flatten = (ss.take i).flatten ++ (ss.drop i).flatten := by
      rw [← List.flatten_append, List.take_append_drop]
    rw [hsplit, List.drop_left]
    rw [List.drop_eq_getElem_cons hi, List.flatten_cons]
    congr 1
    simp [List.getD_eq_getElem?_getD, List.getElem?_eq_getElem hi]
  by_cases heq : (offsets ss).getD i 0 = (offsets ss).getD (i + 1) 0
  · have hlen0 : (ss.getD i []).length = 0 := by
      rw [hstart, hstop] at heq
      omega
    have hnil : ss.getD i [] = [] := List.length_eq_zero.mp hlen0
    simp only [readRow, hlt, if_pos, ite_true]
    rw [if_pos heq, hnil]
  · simp only [readRow, hlt, if_pos, if_neg heq, ite_true]
    rw [hstart, hstop, hsub]
    have harith : (ss.take i).flatten.length + (ss.getD i []).length
        - (ss.take i).flatten.length = (ss.getD i []).length := by omega
    rw [harith]
    rw [List.take_left]

/-- C1 (amended).  After any sequence of `write_part`/`complete` calls ending
in `complete` on a writable IndexedString array with chunk size at least 1:
if at least one string has been written then `indices[0] = 0`, `indices` is
non-decreasing, `len(values) = indices[-1]` and the row count equals
`len(indices) - 1`; if no string has been written the persisted `indices`
dataset is empty (`[]`), not `[0]` — the constructor writes an empty
`index` dataset and the leading `0` only appears at the first index flush
(fields.py lines 279-280 and 296-297; the claim asserted `[0]`). -/
theorem claim_C1 (cs : Nat) (ops : List WIFA.Op) (hone : 1 ≤ cs) :
    (WIFA.opStrings ops ≠ [] →
      ((WIFA.complete (WIFA.run (WIFA.init cs) ops)).index_ds.head? = some 0 ∧
       List.Chain' (· ≤ ·) (WIFA.complete (WIFA.run (WIFA.init cs) ops)).index_ds ∧
       (WIFA.complete (WIFA.run (WIFA.init cs) ops)).index_ds.getLast?
         = some (WIFA.complete (WIFA.run (WIFA.init cs) ops)).values_ds.length ∧
       (WIFA.complete (WIFA.run (WIFA.init cs) ops)).index_ds.length
         = (WIFA.opStrings ops).length + 1)) ∧
    (WIFA.opStrings ops = [] →
      (WIFA.complete (WIFA.run (WIFA.init cs) ops)).index_ds = []) := by
  obtain ⟨f1, f2, _, _, _, _⟩ := WIFA.run_complete_spec cs hone ops
  constructor
  · intro hne
    rw [f2, if_neg hne, f1]
    refine ⟨?_, ?_, ?_, ?_⟩
    · exact head?_offsetsFrom 0 _
    · exact chain'_offsetsFrom 0 _
    · simpa [offsets] using getLast?_offsetsFrom 0 (WIFA.opStrings ops)
    · simpa [offsets] using length_offsetsFrom 0 (WIFA.opStrings ops)
  · intro hnil
    rw [f2, if_pos hnil]

/-- C1 counterexample.  The claim also asserts that a field with no strings
written has `indices = [0]`; in fact after `write_part([])` and `complete()`
on a fresh field the persisted `index` dataset is still empty. -/
theorem claim_C1_counterexample :
    (WIFA.complete (WIFA.write_part (WIFA.init 8) [])).index_ds = [] ∧
    (WIFA.complete (WIFA.write_part (WIFA.init 8) [])).index_ds ≠ [0] := by
  constructor <;> decide

/-- C1 witness: the amended invariants evaluated on a concrete stream. -/
theorem claim_C1_witness :
    (1 ≤ 4) ∧
    (WIFA.opStrings [WIFA.Op.wp [[7, 8], []], WIFA.Op.cp] ≠ [] →
      ((WIFA.complete (WIFA.run (WIFA.init 4)
          [WIFA.Op.wp [[7, 8], []], WIFA.Op.cp])).index_ds.head? = some 0 ∧
       List.Chain' (· ≤ ·) (WIFA.complete (WIFA.run (WIFA.init 4)
          [WIFA.Op.wp [[7, 8], []], WIFA.Op.cp])).index_ds ∧
       (WIFA.complete (WIFA.run (WIFA.init 4)
          [WIFA.Op.wp [[7, 8], []], WIFA.Op.cp])).index_ds.getLast?
         = some (WIFA.complete (WIFA.run (WIFA.init 4)
            [WIFA.Op.wp [[7, 8], []], WIFA.Op.cp])).values_ds.length ∧
       (WIFA.complete (WIFA.run (WIFA.init 4)
          [WIFA.Op.wp [[7, 8], []], WIFA.Op.cp])).index_ds.length
         = (WIFA.opStrings [WIFA.Op.wp [[7, 8], []], WIFA.Op.cp]).length + 1)) ∧
    (WIFA.opStrings [WIFA.Op.wp [[7, 8], []], WIFA.Op.cp] = [] →
      (WIFA.complete (WIFA.run (WIFA.init 4)
        [WIFA.Op.wp [[7, 8], []], WIFA.Op.cp])).index_ds = []) :=
  ⟨by decide, (claim_C1 4 [WIFA.Op.wp [[7, 8], []], WIFA.Op.cp] (by decide)).1,
   (claim_C1 4 [WIFA.Op.wp [[7, 8], []], WIFA.Op.cp] (by decide)).2⟩

/-- C2 (confirmed).  Writing any sequence of string chunks through
`write_part` and finishing with `complete` lets every row be read back
exactly, via the integer `__getitem__` path, including empty strings and
strings longer than the chunk capacity (which span a value-buffer flush
boundary). -/
theorem claim_C2 (cs : Nat) (parts : List (List (List Nat))) (hone : 1 ≤ cs) (i : Nat)
    (hi : i < parts.flatten.length) :
    readRow (WIFA.complete (parts.foldl WIFA.write_part (WIFA.init cs))).index_ds
            (WIFA.complete (parts.foldl WIFA.write_part (WIFA.init cs))).values_ds i
      = some (parts.flatten.getD i []) := by
  rw [WIFA.foldl_write_part_eq_run parts (WIFA.init cs)]
  obtain ⟨f1, f2, _, _, _, _⟩ := WIFA.run_complete_spec cs hone (parts.map WIFA.Op.wp)
  rw [WIFA.opStrings_map_wp] at f1 f2
  have hne : parts.flatten ≠ [] := by
    intro hcon
    rw [hcon] at hi
    simp at hi
  rw [f1, f2, if_neg hne]
  exact readRow_offsets parts.flatten i hi

/-- C2 witness: chunk size 3, a first `write_part` carrying a 4-byte string
(longer than the chunk capacity, so its bytes span a flush boundary) and an
empty string, and a second `write_part` carrying one more string; rows 0 and
1 read back exactly. -/
theorem claim_C2_witness :
    (1 ≤ 3) ∧
    (0 < ([[[104, 105, 106, 107], []], [[9]]] : List (List (List Nat))).flatten.length) ∧
    (1 < ([[[104, 105, 106, 107], []], [[9]]] : List (List (List Nat))).flatten.length) ∧
    readRow (WIFA.complete (([[[104, 105, 106, 107], []], [[9]]] :
            List (List (List Nat))).foldl WIFA.write_part (WIFA.init 3))).index_ds
        (WIFA.complete (([[[104, 105, 106, 107], []], [[9]]] :
            List (List (List Nat))).foldl WIFA.write_part (WIFA.init 3))).values_ds 0
      = some (([[[104, 105, 106, 107], []], [[9]]] :
            List (List (List Nat))).flatten.getD 0 []) ∧
    readRow (WIFA.complete (([[[104, 105, 106, 107], []], [[9]]] :
            List (List (List Nat))).foldl WIFA.write_part (WIFA.init 3))).index_ds
        (WIFA.complete (([[[104, 105, 106, 107], []], [[9]]] :
            List (List (List Nat))).foldl WIFA.write_part (WIFA.init 3))).values_ds 1
      = some (([[[104, 105, 106, 107], []], [[9]]] :
            List (List (List Nat))).flatten.getD 1 []) :=
  ⟨by decide, by decide, by decide,
   claim_C2 3 [[[104, 105, 106, 107], []], [[9]]] (by decide) 0 (by decide),
   claim_C2 3 [[[104, 105, 106, 107], []], [[9]]] (by decide) 1 (by decide)⟩

/-- C8 (amended).  `WriteableIndexedFieldArray` keeps no completion flag and
raises no `StateError`: `write_part` after `complete()` succeeds, and the
persisted datasets after any call sequence ending in `complete` depend only
on the concatenation of all strings written — a `complete` in the middle of
a stream is transparent, so writing after `complete` simply continues the
stream (the claim asserted a `StateError`-class failure). -/
theorem claim_C8 (cs : Nat) (ops1 ops2 : List WIFA.Op) (hone : 1 ≤ cs)
    (h : WIFA.opStrings ops1 = WIFA.opStrings ops2) :
    (WIFA.complete (WIFA.run (WIFA.init cs) ops1)).index_ds
      = (WIFA.complete (WIFA.run (WIFA.init cs) ops2)).index_ds ∧
    (WIFA.complete (WIFA.run (WIFA.init cs) ops1)).values_ds
      = (WIFA.complete (WIFA.run (WIFA.init cs) ops2)).values_ds ∧
    (WIFA.complete (WIFA.run (WIFA.init cs) ops1)).accumulated
      = (WIFA.complete (WIFA.run (WIFA.init cs) ops2)).accumulated := by
  obtain ⟨f1a, f2a, _, _, _, f6a⟩ := WIFA.run_complete_spec cs hone ops1
  obtain ⟨f1b, f2b, _, _, _, f6b⟩ := WIFA.run_complete_spec cs hone ops2
  refine ⟨?_, ?_, ?_⟩
  · rw [f2a, f2b, h]
  · rw [f1a, f1b, h]
  · rw [f6a, f6b, h]

/-- C8 counterexample.  `write_part` after `complete()` does not fail with a
`StateError`: on a fresh field with chunk size 4, the call sequence
`write_part(["a"]); complete(); write_part(["b"]); complete()` runs to the
exact same state as `write_part(["a"]); write_part(["b"]); complete()`,
with the continued stream `indices = [0, 1, 2]`, `values = "ab"`. -/
theorem claim_C8_counterexample :
    WIFA.complete (WIFA.write_part (WIFA.complete
        (WIFA.write_part (WIFA.init 4) [[97]])) [[98]])
      = WIFA.complete (WIFA.write_part
        (WIFA.write_part (WIFA.init 4) [[97]]) [[98]]) ∧
    (WIFA.complete (WIFA.write_part (WIFA.complete
        (WIFA.write_part (WIFA.init 4) [[97]])) [[98]])).index_ds = [0, 1, 2] ∧
    (WIFA.complete (WIFA.write_part (WIFA.complete
        (WIFA.write_part (WIFA.init 4) [[97]])) [[98]])).values_ds = [97, 98] := by
  refine ⟨?_, ?_, ?_⟩ <;> decide

/-- C8 witness: the amended claim applied to the op sequences of the
counterexample, whose written strings agree. -/
theorem claim_C8_witness :
    (1 ≤ 4) ∧
    (WIFA.opStrings [WIFA.Op.wp [[97]], WIFA.Op.cp, WIFA.Op.wp [[98]]]
      = WIFA.opStrings [WIFA.Op.wp [[97]], WIFA.Op.wp [[98]]]) ∧
    ((WIFA.complete (WIFA.run (WIFA.init 4)
        [WIFA.Op.wp [[97]], WIFA.Op.cp, WIFA.Op.wp [[98]]])).index_ds
      = (WIFA.complete (WIFA.run (WIFA.init 4)
        [WIFA.Op.wp [[97]], WIFA.Op.wp [[98]]])).index_ds ∧
     (WIFA.complete (WIFA.run (WIFA.init 4)
        [WIFA.Op.wp [[97]], WIFA.Op.cp, WIFA.Op.wp [[98]]])).values_ds
      = (WIFA.complete (WIFA.run (WIFA.init 4)
        [WIFA.Op.wp [[97]], WIFA.Op.wp [[98]]])).values_ds ∧
     (WIFA.complete (WIFA.run (WIFA.init 4)
        [WIFA.Op.wp [[97]], WIFA.Op.cp, WIFA.Op.wp [[98]]])).accumulated
      = (WIFA.complete (WIFA.run (WIFA.init 4)
        [WIFA.Op.wp [[97]], WIFA.Op.wp [[98]]])).accumulated) :=
  ⟨by decide, by decide,
   claim_C8 4 [WIFA.Op.wp [[97]], WIFA.Op.cp, WIFA.Op.wp [[98]]]
     [WIFA.Op.wp [[97]], WIFA.Op.wp [[98]]] (by decide) (by decide)⟩

/-- numpy integer fancy indexing over a one-dimensional array, as used by
`array[index_to_apply]` in `NumericField.apply_index` (fields.py line 549;
`FixedStringField`, `CategoricalField` and `TimestampField` share the same
body): every index must lie in `[-n, n)`; a negative index `i` selects
element `n + i` (Python wrap-around); any index outside `[-n, n)` raises
`IndexError`. -/
def fancyIndex (a : List Int) (idx : List Int) : Except PyErr (List Int) :=
  if idx.all (fun i => -(a.length : Int) ≤ i && i < (a.length : Int)) then
    .ok (idx.map (fun i => a.getD (if i < 0 then (i + (a.length : Int)).toNat else i.toNat) 0))
  else .error .indexError

/-- numpy boolean-mask selection `array[filter_to_apply]`
(`NumericField.apply_filter`, fields.py line 536): the mask length must
equal the array length (`IndexError` otherwise); true-mask rows are kept in
order. -/
def maskSelect (a : List Int) (mask : List Bool) : Except PyErr (List Int) :=
  if mask.length = a.length then
    .ok (((a.zip mask).filter (fun p => p.2)).map (fun p => p.1))
  else .error .indexError

/-- A `NumericField` handle (fields.py lines 507-558): the write-enabled
flag plus the backing `values` dataset (shared between all handles bound to
the same storage). -/
structure NumericField where
  writeEnabled : Bool
  data : List Int
  deriving DecidableEq, Repr

/-- `NumericField.writeable` (fields.py lines 511-512): a new handle on the
same backing storage with writes enabled. -/
def NumericField.writeable (f : NumericField) : NumericField :=
  { f with writeEnabled := true }

/-- `NumericField.apply_index` (fields.py lines 547-558): gather the source
data through numpy fancy indexing, resolve the destination (the field
itself when `dstfld` is `None`, and a silently-created writable handle when
the destination is read-only), then store the gathered array into the
destination's backing data (slice assignment when the lengths match,
otherwise `clear()` + `write()` — either way the backing data becomes the
gathered array). -/
def NumericField.apply_index (f : NumericField) (idx : List Int)
    (dst : Option NumericField) : Except PyErr NumericField :=
  match fancyIndex f.data idx with
  | .error e => .error e
  | .ok result =>
    let d := dst.getD f
    let d := if !d.writeEnabled then d.writeable else d
    .ok { d with data := result }

/-- `NumericField.apply_filter` (fields.py lines 534-545), same shape as
`apply_index` with a boolean mask. -/
def NumericField.apply_filter (f : NumericField) (mask : List Bool)
    (dst : Option NumericField) : Except PyErr NumericField :=
  match maskSelect f.data mask with
  | .error e => .error e
  | .ok result =>
    let d := dst.getD f
    let d := if !d.writeEnabled then d.writeable else d
    .ok { d with data := result }

/-- Modelled from the spec: `ops.apply_indices_to_index_values`
(exetera/core/operations.py, not among the sources; called by
`IndexedStringField.apply_index`, fields.py lines 433-435).  Per spec
section 4.2, IndexedString `apply_index` must recompute offsets: the gather
positions are existing row positions with out-of-range positions failing
with `IndexError`; the per-row byte spans indicated by the old offsets are
concatenated in the new order and fresh offsets starting at 0 are
emitted. -/
def apply_indices_to_index_values (idx : List Int) (indices : List Nat)
    (values : List Nat) : Except PyErr (List Nat × List Nat) :=
  let n := indices.length - 1
  if idx.all (fun i => 0 ≤ i && i < (n : Int)) then
    let rows := idx.map (fun i =>
      (values.drop (indices.getD i.toNat 0)).take
        (indices.getD (i.toNat + 1) 0 - indices.getD i.toNat 0))
    .ok (offsets rows, rows.flatten)
  else .error .indexError

/-- An `IndexedStringField` handle (fields.py lines 358-449). -/
structure IndexedStringField where
  writeEnabled : Bool
  indices : List Nat
  values : List Nat
  deriving DecidableEq, Repr

/-- `IndexedStringField.writeable` (fields.py lines 366-367). -/
def IndexedStringField.writeable (f : IndexedStringField) : IndexedStringField :=
  { f with writeEnabled := true }

/-- `IndexedStringField.apply_index` (fields.py lines 429-449): recompute
the index/value pair through `ops.apply_indices_to_index_values`, resolve
the destination as in the numeric case, and replace the destination's
`indices` and `values` datasets with the recomputed pair. -/
def IndexedStringField.apply_index (f : IndexedStringField) (idx : List Int)
    (dst : Option IndexedStringField) : Except PyErr IndexedStringField :=
  match apply_indices_to_index_values idx f.indices f.values with
  | .error e => .error e
  | .ok (di, dv) =>
    let d := dst.getD f
    let d := if !d.writeEnabled then d.writeable else d
    .ok { d with indices := di, values := dv }

/-- `ReadOnlyFieldArray` (fields.py lines 68-102): a read-only accessor over
one backing dataset.  Every mutating method raises `PermissionError`
before touching anything, so no successor state is ever produced. -/
structure ReadOnlyFieldArray where
  data : List Int
  deriving DecidableEq, Repr

/-- `ReadOnlyFieldArray.__setitem__` (fields.py lines 84-86). -/
def ReadOnlyFieldArray.setitem (_a : ReadOnlyFieldArray) (_key : Nat) (_value : Int) :
    Except PyErr ReadOnlyFieldArray := .error .permissionError

/-- `ReadOnlyFieldArray.clear` (fields.py lines 88-90). -/
def ReadOnlyFieldArray.clear (_a : ReadOnlyFieldArray) :
    Except PyErr ReadOnlyFieldArray := .error .permissionError

/-- `ReadOnlyFieldArray.write_part` (fields.py lines 92-94). -/
def ReadOnlyFieldArray.write_part (_a : ReadOnlyFieldArray) (_part : List Int) :
    Except PyErr ReadOnlyFieldArray := .error .permissionError

/-- `ReadOnlyFieldArray.write` (fields.py lines 96-98). -/
def ReadOnlyFieldArray.write (_a : ReadOnlyFieldArray) (_part : List Int) :
    Except PyErr ReadOnlyFieldArray := .error .permissionError

/-- `ReadOnlyFieldArray.complete` (fields.py lines 100-102). -/
def ReadOnlyFieldArray.complete (_a : ReadOnlyFieldArray) :
    Except PyErr ReadOnlyFieldArray := .error .permissionError

/-- `ReadOnlyIndexedFieldArray` mutators (fields.py lines 182-200). -/
structure ReadOnlyIndexedFieldArray where
  indices : List Nat
  values : List Nat
  deriving DecidableEq, Repr

def ReadOnlyIndexedFieldArray.setitem (_a : ReadOnlyIndexedFieldArray) (_key : Nat)
    (_value : List Nat) : Except PyErr ReadOnlyIndexedFieldArray := .error .permissionError

def ReadOnlyIndexedFieldArray.clear (_a : ReadOnlyIndexedFieldArray) :
    Except PyErr ReadOnlyIndexedFieldArray := .error .permissionError

def ReadOnlyIndexedFieldArray.write_part (_a : ReadOnlyIndexedFieldArray)
    (_part : List (List Nat)) : Except PyErr ReadOnlyIndexedFieldArray :=
  .error .permissionError

def ReadOnlyIndexedFieldArray.write (_a : ReadOnlyIndexedFieldArray)
    (_part : List (List Nat)) : Except PyErr ReadOnlyIndexedFieldArray :=
  .error .permissionError

def ReadOnlyIndexedFieldArray.complete (_a : ReadOnlyIndexedFieldArray) :
    Except PyErr ReadOnlyIndexedFieldArray := .error .permissionError

/-- The byte span `values[offsets[j] : offsets[j + 1]]` of a well-formed
indexed pair is exactly row `j`. -/
theorem slice_offsets (ss : List (List Nat)) (j : Nat) (hj : j < ss.length) :
    ((ss.flatten.drop ((offsets ss).getD j 0)).take
      ((offsets ss).getD (j + 1) 0 - (offsets ss).getD j 0)) = ss.getD j [] := by
  have hstart : (offsets ss).getD j 0 = (ss.take j).flatten.length := by
    simpa [offsets] using getD_offsetsFrom 0 ss j (Nat.le_of_lt hj)
  have htake : ss.take (j + 1) = ss.take j ++ [ss.getD j []] := by
    rw [List.take_succ]
    congr 1
    rw [List.getElem?_eq_getElem hj]
    simp [List.getD_eq_getElem?_getD, List.getElem?_eq_getElem hj]
  have hstop : (offsets ss).getD (j + 1) 0
      = (ss.take j).flatten.length + (ss.getD j []).length := by
    have h := getD_offsetsFrom 0 ss (j + 1) (by omega)
    rw [htake] at h
    simpa [offsets] using h
  have hsub : ss.flatten.drop ((ss.take j).flatten.length)
      = ss.getD j [] ++ (ss.drop (j + 1)).flatten := by
    have hsplit : ss.flatten = (ss.take j).flatten ++ (ss.drop j).flatten := by
      rw [← List.flatten_append, List.take_append_drop]
    rw [hsplit, List.drop_left]
    rw [List.drop_eq_getElem_cons hj, List.flatten_cons]
    congr 1
    simp [List.getD_eq_getElem?_getD, List.getElem?_eq_getElem hj]
  rw [hstart, hstop, hsub]
  have harith : (ss.take j).flatten.length + (ss.getD j []).length
      - (ss.take j).flatten.length = (ss.getD j []).length := by omega
  rw [harith, List.take_left]

/-- C3 (amended).  For every field, an index list whose entries all lie in
`[0, length)` gathers row by row — output row `j` is the source row at
position `idx[j]`, with duplicates and arbitrary order allowed — and an
index at or above `length`, or below `-length`, fails with `IndexError`.
Amendment forced by the counterexample: a negative index in `[-length, 0)`
does not fail; numpy fancy indexing resolves it to `length + index`
(Python wrap-around), so only indices outside `[-length, length)` raise.
The IndexedString branch goes through the spec-modelled
`ops.apply_indices_to_index_values` and recomputes fresh offsets. -/
theorem claim_C3 :
    (∀ (f : NumericField) (idx : List Int) (dst : Option NumericField),
      (∀ k ∈ idx, 0 ≤ k ∧ k < (f.data.length : Int)) →
        (NumericField.apply_index f idx dst).map NumericField.data
          = Except.ok (idx.map (fun k => f.data.getD k.toNat 0))) ∧
    (∀ (f : NumericField) (idx : List Int) (dst : Option NumericField),
      (∃ k ∈ idx, k < -(f.data.length : Int) ∨ (f.data.length : Int) ≤ k) →
        NumericField.apply_index f idx dst = .error .indexError) ∧
    (∀ (f : IndexedStringField) (ss : List (List Nat)) (idx : List Int)
        (dst : Option IndexedStringField),
      f.indices = offsets ss → f.values = ss.flatten →
      (∀ k ∈ idx, 0 ≤ k ∧ k < (ss.length : Int)) →
        (IndexedStringField.apply_index f idx dst).map (fun g => (g.indices, g.values))
          = Except.ok (offsets (idx.map (fun k => ss.getD k.toNat [])),
                       (idx.map (fun k => ss.getD k.toNat [])).flatten)) ∧
    (∀ (f : IndexedStringField) (idx : List Int) (dst : Option IndexedStringField),
      (∃ k ∈ idx, k < 0 ∨ ((f.indices.length - 1 : Nat) : Int) ≤ k) →
        IndexedStringField.apply_index f idx dst = .error .indexError) := by
  refine ⟨?_, ?_, ?_, ?_⟩
  · intro f idx dst h
    have hall : idx.all (fun i => -(f.data.length : Int) ≤ i && i < (f.data.length : Int))
        = true := by
      rw [List.all_eq_true]
      intro k hk
      obtain ⟨hk0, hkn⟩ := h k hk
      simp only [Bool.and_eq_true, decide_eq_true_eq]
      omega
    unfold NumericField.apply_index fancyIndex
    rw [if_pos hall]
    simp only [Except.map]
    congr 1
    apply List.map_congr_left
    intro k hk
    obtain ⟨hk0, _⟩ := h k hk
    rw [if_neg (by omega)]
  · intro f idx dst h
    obtain ⟨k, hk, hout⟩ := h
    have hall : idx.all (fun i => -(f.data.length : Int) ≤ i && i < (f.data.length : Int))
        = false := by
      rw [List.all_eq_false]
      refine ⟨k, hk, ?_⟩
      simp only [Bool.and_eq_true, decide_eq_true_eq, not_and]
      omega
    unfold NumericField.apply_index fancyIndex
    rw [if_neg (by simp [hall])]
  · intro f ss idx dst hfi hfv h
    have hn : f.indices.length - 1 = ss.length := by
      rw [hfi]
      simp [offsets, length_offsetsFrom]
    have hall : idx.all (fun i => 0 ≤ i && i < ((f.indices.length - 1 : Nat) : Int))
        = true := by
      rw [List.all_eq_true]
      intro k hk
      obtain ⟨hk0, hkn⟩ := h k hk
      rw [hn]
      simp only [Bool.and_eq_true, decide_eq_true_eq]
      omega
    unfold IndexedStringField.apply_index apply_indices_to_index_values
    rw [if_pos hall]
    simp only [Except.map]
    have hrows : idx.map (fun i =>
        (f.values.drop (f.indices.getD i.toNat 0)).take
          (f.indices.getD (i.toNat + 1) 0 - f.indices.getD i.toNat 0))
        = idx.map (fun k => ss.getD k.toNat []) := by
      apply List.map_congr_left
      intro k hk
      obtain ⟨hk0, hkn⟩ := h k hk
      have hklt : k.toNat < ss.length := by omega
      rw [hfi, hfv]
      exact slice_offsets ss k.toNat hklt
    rw [hrows]
  · intro f idx dst h
    obtain ⟨k, hk, hout⟩ := h
    have hall : idx.all (fun i => 0 ≤ i && i < ((f.indices.length - 1 : Nat) : Int))
        = false := by
      rw [List.all_eq_false]
      refine ⟨k, hk, ?_⟩
      simp only [Bool.and_eq_true, decide_eq_true_eq, not_and]
      omega
    unfold IndexedStringField.apply_index apply_indices_to_index_values
    rw [if_neg (by simp [hall])]

/-- C3 counterexample.  The claim says any index outside `[0, length)` makes
`apply_index` fail with `IndexError`; but on the numeric path, gathering
with index `-1` from a 3-row field succeeds and returns the last row
(numpy wrap-around) instead of raising. -/
theorem claim_C3_counterexample :
    NumericField.apply_index ⟨true, [10, 20, 30]⟩ [-1] none
      = .ok ⟨true, [30]⟩ ∧
    NumericField.apply_index ⟨true, [10, 20, 30]⟩ [-1] none
      ≠ .error .indexError := by
  refine ⟨rfl, ?_⟩
  intro h
  have hok : NumericField.apply_index ⟨true, [10, 20, 30]⟩ [-1] none
      = .ok ⟨true, [30]⟩ := rfl
  rw [hok] at h
  exact Except.noConfusion h

/-- C3 witness: the amended claim evaluated on concrete inputs — an
unsorted, duplicated in-range gather on a numeric field; a hard
out-of-range index failing; and an IndexedString gather with recomputed
offsets. -/
theorem claim_C3_witness :
    ((∀ k ∈ ([2, 0, 1, 1] : List Int), 0 ≤ k ∧ k < ((3 : Nat) : Int)) ∧
      (NumericField.apply_index ⟨true, [10, 20, 30]⟩ [2, 0, 1, 1] none).map
          NumericField.data
        = Except.ok (([2, 0, 1, 1] : List Int).map
            (fun k => ([10, 20, 30] : List Int).getD k.toNat 0))) ∧
    ((∃ k ∈ ([3] : List Int), k < -((3 : Nat) : Int) ∨ ((3 : Nat) : Int) ≤ k) ∧
      NumericField.apply_index ⟨true, [10, 20, 30]⟩ [3] none = .error .indexError) ∧
    ((⟨true, [0, 2, 2, 5], [7, 8, 9, 9, 9]⟩ : IndexedStringField).indices
        = offsets [[7, 8], [], [9, 9, 9]] ∧
      (⟨true, [0, 2, 2, 5], [7, 8, 9, 9, 9]⟩ : IndexedStringField).values
        = ([[7, 8], [], [9, 9, 9]] : List (List Nat)).flatten ∧
      (∀ k ∈ ([2, 2, 0] : List Int), 0 ≤ k ∧
        k < (([[7, 8], [], [9, 9, 9]] : List (List Nat)).length : Int)) ∧
      (IndexedStringField.apply_index ⟨true, [0, 2, 2, 5], [7, 8, 9, 9, 9]⟩
          [2, 2, 0] none).map (fun g => (g.indices, g.values))
        = Except.ok (offsets (([2, 2, 0] : List Int).map
              (fun k => ([[7, 8], [], [9, 9, 9]] : List (List Nat)).getD k.toNat [])),
            (([2, 2, 0] : List Int).map
              (fun k => ([[7, 8], [], [9, 9, 9]] : List (List Nat)).getD k.toNat [])).flatten)) :=
  ⟨⟨by decide, claim_C3.1 ⟨true, [10, 20, 30]⟩ [2, 0, 1, 1] none (by decide)⟩,
   ⟨by decide, claim_C3.2.1 ⟨true, [10, 20, 30]⟩ [3] none (by decide)⟩,
   by decide, by decide, by decide,
   claim_C3.2.2.1 ⟨true, [0, 2, 2, 5], [7, 8, 9, 9, 9]⟩ [[7, 8], [], [9, 9, 9]]
     [2, 2, 0] none (by decide) (by decide) (by decide)⟩

/-- C7 (amended).  On a read-only field array (flat or indexed) every direct
mutating call — element assignment, `clear`, `write_part`, `write`,
`complete` — fails with `PermissionError` and produces no modified state,
and `writeable()` is the separate explicit path to a writable handle.
Amendment forced by the counterexample: the in-place `apply_filter` /
`apply_index` paths do NOT fail on a read-only field handle — the field
methods silently call `writeable()` themselves (fields.py lines 538-539,
550-551) and mutate the shared backing storage. -/
theorem claim_C7 :
    (∀ (a : ReadOnlyFieldArray) (k : Nat) (v : Int),
        a.setitem k v = .error .permissionError) ∧
    (∀ a : ReadOnlyFieldArray, a.clear = .error .permissionError) ∧
    (∀ (a : ReadOnlyFieldArray) (p : List Int),
        a.write_part p = .error .permissionError) ∧
    (∀ (a : ReadOnlyFieldArray) (p : List Int), a.write p = .error .permissionError) ∧
    (∀ a : ReadOnlyFieldArray, a.complete = .error .permissionError) ∧
    (∀ (a : ReadOnlyIndexedFieldArray) (k : Nat) (v : List Nat),
        a.setitem k v = .error .permissionError) ∧
    (∀ a : ReadOnlyIndexedFieldArray, a.clear = .error .permissionError) ∧
    (∀ (a : ReadOnlyIndexedFieldArray) (p : List (List Nat)),
        a.write_part p = .error .permissionError) ∧
    (∀ (a : ReadOnlyIndexedFieldArray) (p : List (List Nat)),
        a.write p = .error .permissionError) ∧
    (∀ a : ReadOnlyIndexedFieldArray, a.complete = .error .permissionError) ∧
    (∀ (data : List Int) (mask : List Bool), mask.length = data.length →
        NumericField.apply_filter ⟨false, data⟩ mask none
          = .ok ⟨true, ((data.zip mask).filter (fun p => p.2)).map (fun p => p.1)⟩) ∧
    (∀ (data : List Int) (idx : List Int),
        (∀ k ∈ idx, 0 ≤ k ∧ k < (data.length : Int)) →
        NumericField.apply_index ⟨false, data⟩ idx none
          = .ok ⟨true, idx.map (fun k => data.getD k.toNat 0)⟩) := by
  refine ⟨fun _ _ _ => rfl, fun _ => rfl, fun _ _ => rfl, fun _ _ => rfl, fun _ => rfl,
    fun _ _ _ => rfl, fun _ => rfl, fun _ _ => rfl, fun _ _ => rfl, fun _ => rfl, ?_, ?_⟩
  · intro data mask hlen
    simp [NumericField.apply_filter, maskSelect, hlen, NumericField.writeable]
  · intro data idx h
    have h1 := claim_C3.1 ⟨false, data⟩ idx none h
    revert h1
    unfold NumericField.apply_index
    cases hfi : fancyIndex data idx with
    | error e => intro h1; exact absurd h1 (by simp [Except.map])
    | ok result =>
      intro h1
      simp only [Except.map, Except.ok.injEq] at h1 ⊢
      simp [NumericField.writeable]
      simpa [List.getD_eq_getElem?_getD] using h1

/-- C7 counterexample.  The claim demands that the in-place
`apply_filter` on a read-only field handle fail with `PermissionError`;
instead the call succeeds — `NumericField.apply_filter` silently obtains a
writable handle on the same backing storage and mutates it. -/
theorem claim_C7_counterexample :
    NumericField.apply_filter ⟨false, [1, 2, 3]⟩ [true, false, true] none
      = .ok ⟨true, [1, 3]⟩ ∧
    NumericField.apply_filter ⟨false, [1, 2, 3]⟩ [true, false, true] none
      ≠ .error .permissionError := by
  refine ⟨rfl, ?_⟩
  intro h
  have hok : NumericField.apply_filter ⟨false, [1, 2, 3]⟩ [true, false, true] none
      = .ok ⟨true, [1, 3]⟩ := rfl
  rw [hok] at h
  exact Except.noConfusion h

/-- C7 witness: the amended claim applied to a concrete read-only array and
a concrete in-place filter on a read-only handle. -/
theorem claim_C7_witness :
    ((⟨[4, 5]⟩ : ReadOnlyFieldArray).write_part [6] = .error .permissionError) ∧
    ((⟨[0, 1], [7]⟩ : ReadOnlyIndexedFieldArray).clear = .error .permissionError) ∧
    (([true, false, true] : List Bool).length = ([1, 2, 3] : List Int).length ∧
      NumericField.apply_filter ⟨false, [1, 2, 3]⟩ [true, false, true] none
        = .ok ⟨true, ((([1, 2, 3] : List Int).zip [true, false, true]).filter
            (fun p => p.2)).map (fun p => p.1)⟩) :=
  ⟨claim_C7.2.2.1 ⟨[4, 5]⟩ [6],
   claim_C7.2.2.2.2.2.2.1 ⟨[0, 1], [7]⟩,
   by decide,
   claim_C7.2.2.2.2.2.2.2.2.2.2.1 [1, 2, 3] [true, false, true] (by decide)⟩

/-- A numpy integer-dtype store: writing an integer into an array of a
signed width-`bits` dtype keeps its value modulo `2 ^ bits` in two's
complement (range `[-2^(bits-1), 2^(bits-1))`); into an unsigned dtype,
modulo `2 ^ bits`.  This is the classic numpy cast performed by
`results[i] = value` into `self._results = np.zeros(chunksize,
dtype=value_type)` (fields.py lines 783 and 799); recent numpy versions
raise `OverflowError` for an out-of-range Python int instead, and the C6
theorem below only evaluates codes inside the dtype's range, where the two
behaviours coincide. -/
def dtypeStore (signed : Bool) (bits : Nat) (v : Int) : Int :=
  if signed then (v + 2 ^ (bits - 1)) % 2 ^ bits - 2 ^ (bits - 1)
  else v % 2 ^ bits

theorem dtypeStore_eq_self (bits : Nat) (hb : 1 ≤ bits) (v : Int)
    (h1 : -(2 ^ (bits - 1)) ≤ v) (h2 : v < 2 ^ (bits - 1)) :
    dtypeStore true bits v = v := by
  unfold dtypeStore
  rw [if_pos rfl]
  have hsplit : (2 : Int) ^ bits = 2 ^ (bits - 1) * 2 := by
    conv_lhs => rw [show bits = (bits - 1) + 1 by omega]
    rw [pow_succ]
  have hnn : 0 ≤ v + 2 ^ (bits - 1) := by omega
  have hlt : v + 2 ^ (bits - 1) < 2 ^ bits := by rw [hsplit]; omega
  rw [Int.emod_eq_of_lt hnn hlt]
  omega

/-- One cell of `LeakyCategoricalImporter.write_part` (fields.py lines
794-799): `value = keys.get(cell, -1)`; the `value == -1` comparison and
the freetext routing use the raw Python integer, while the store
`results[i] = value` narrows the code into the `value_type` dtype of the
staging buffer `self._results` (fields.py line 783). -/
def leakyCell (signed : Bool) (bits : Nat) (keys : List (String × Int)) (v : String) :
    Int × String :=
  let value := (keys.lookup v).getD (-1)
  if value = -1 then (dtypeStore signed bits value, v)
  else (dtypeStore signed bits value, "")

/-- The buffer-filling loop of `LeakyCategoricalImporter.write_part`
(fields.py lines 793-799), phrased structurally over the remaining buffer
space: position `i` of the two chunksize-sized staging buffers receives the
dtype-narrowed code and the freetext of cell `i`; running past the end of a
buffer is an `IndexError`. -/
def leakyLoop (signed : Bool) (bits : Nat) (keys : List (String × Int)) :
    List String → List Int → List String → Except PyErr (List Int × List String)
  | [], rbuf, sbuf => .ok (rbuf, sbuf)
  | v :: vs, rbuf, sbuf =>
    match rbuf, sbuf with
    | _r0 :: rtail, _s0 :: stail =>
      match leakyLoop signed bits keys vs rtail stail with
      | .error e => .error e
      | .ok (a, b) =>
        .ok ((leakyCell signed bits keys v).1 :: a, (leakyCell signed bits keys v).2 :: b)
    | _, _ => .error .indexError

/-- `LeakyCategoricalImporter.write_part` (fields.py lines 789-806): fill
the two staging buffers (`self._results`, a `value_type`-dtype array
prefilled with zeros, and `self._strresult`) cell by cell, then pass the
first `len(values)` entries of each buffer to `write_part` of the
categorical codes field and of the companion IndexedString freetext field
respectively. -/
def leaky_write_part (signed : Bool) (bits : Nat) (keys : List (String × Int))
    (chunksize : Nat) (values : List String) : Except PyErr (List Int × List String) :=
  match leakyLoop signed bits keys values (List.replicate chunksize 0)
      (List.replicate chunksize "") with
  | .error e => .error e
  | .ok (results, strresults) =>
    .ok (results.take values.length, strresults.take values.length)

theorem leakyCell_fst (signed : Bool) (bits : Nat) (keys : List (String × Int))
    (v : String) :
    (leakyCell signed bits keys v).1
      = dtypeStore signed bits ((keys.lookup v).getD (-1)) := by
  show (if (keys.lookup v).getD (-1) = -1
      then (dtypeStore signed bits ((keys.lookup v).getD (-1)), v)
      else (dtypeStore signed bits ((keys.lookup v).getD (-1)), "")).1
    = dtypeStore signed bits ((keys.lookup v).getD (-1))
  split <;> rfl

theorem leakyCell_snd (signed : Bool) (bits : Nat) (keys : List (String × Int))
    (v : String) :
    (leakyCell signed bits keys v).2
      = (if (keys.lookup v).getD (-1) = -1 then v else "") := by
  show (if (keys.lookup v).getD (-1) = -1
      then (dtypeStore signed bits ((keys.lookup v).getD (-1)), v)
      else (dtypeStore signed bits ((keys.lookup v).getD (-1)), "")).2
    = (if (keys.lookup v).getD (-1) = -1 then v else "")
  split <;> rfl

theorem leakyLoop_spec (signed : Bool) (bits : Nat) (keys : List (String × Int))
    (vs : List String) :
    ∀ (rbuf : List Int) (sbuf : List String),
      vs.length ≤ rbuf.length → vs.length ≤ sbuf.length →
      leakyLoop signed bits keys vs rbuf sbuf
        = .ok (vs.map (fun v => (leakyCell signed bits keys v).1) ++ rbuf.drop vs.length,
               vs.map (fun v => (leakyCell signed bits keys v).2) ++ sbuf.drop vs.length) := by
  induction vs with
  | nil =>
    intro rbuf sbuf _ _
    simp [leakyLoop]
  | cons v vs ih =>
    intro rbuf sbuf hr hs
    cases rbuf with
    | nil => simp at hr
    | cons r0 rtail =>
      cases sbuf with
      | nil => simp at hs
      | cons s0 stail =>
        have hr2 : vs.length ≤ rtail.length := by simpa using hr
        have hs2 : vs.length ≤ stail.length := by simpa using hs
        simp only [leakyLoop, ih rtail stail hr2 hs2, List.map_cons, List.length_cons,
          List.drop_succ_cons, List.cons_append]

theorem leaky_write_part_spec (signed : Bool) (bits : Nat) (keys : List (String × Int))
    (chunksize : Nat) (values : List String) (h : values.length ≤ chunksize) :
    leaky_write_part signed bits keys chunksize values
      = .ok (values.map (fun v => (leakyCell signed bits keys v).1),
             values.map (fun v => (leakyCell signed bits keys v).2)) := by
  unfold leaky_write_part
  rw [leakyLoop_spec signed bits keys values (List.replicate chunksize 0)
      (List.replicate chunksize "") (by simpa using h) (by simpa using h)]
  show Except.ok
      ((values.map (fun v => (leakyCell signed bits keys v).1)
          ++ (List.replicate chunksize (0 : Int)).drop values.length).take values.length,
       (values.map (fun v => (leakyCell signed bits keys v).2)
          ++ (List.replicate chunksize "").drop values.length).take values.length)
    = Except.ok (values.map (fun v => (leakyCell signed bits keys v).1),
                 values.map (fun v => (leakyCell signed bits keys v).2))
  rw [List.take_left' (by simp), List.take_left' (by simp)]

/-- A successful `dict.get` hit comes from an entry of the table. -/
theorem mem_of_lookup_eq_some {l : List (String × Int)} {a : String} {b : Int}
    (h : l.lookup a = some b) : (a, b) ∈ l := by
  induction l with
  | nil => simp [List.lookup] at h
  | cons p l ih =>
    obtain ⟨k, v⟩ := p
    simp only [List.lookup] at h
    cases hk : (a == k) with
    | false =>
      rw [hk] at h
      exact List.mem_cons_of_mem _ (ih h)
    | true =>
      rw [hk] at h
      have hka : a = k := by simpa using hk
      have hvb : v = b := by simpa using h
      subst hka
      subst hvb
      exact List.mem_cons_self _ _

/-- C6 (amended).  For a leaky import with a signed `value_type` dtype in
which `-1` and every table code are representable, a key table that maps no
key to the reserved sentinel `-1`, and a chunk that fits the staging
buffers: every unmapped cell is coded `-1` with its literal text routed to
the companion IndexedString freetext field, and every mapped cell is coded
with its table code and contributes the empty string; in particular the
spec's example `{'foo': 0, 'bar': 1}` (int8) over `["foo", "baz", "bar"]`
yields codes `[0, -1, 1]` and freetext `["", "baz", ""]`.  Amendments
forced by the counterexample and the staging buffer's dtype: a key that
the table itself maps to `-1` is indistinguishable from an unmapped cell
(`keys.get(cell, -1)` followed by `value == -1`), so such a mapped cell
contributes its literal text, not the empty string; and codes are stored
through a numpy cast into `value_type`, so a code outside the dtype's
range is not persisted as-is (it wraps, or raises on recent numpy) and an
unsigned dtype cannot hold the `-1` sentinel at all. -/
theorem claim_C6 :
    (∀ (bits : Nat) (keys : List (String × Int)) (chunksize : Nat)
        (values : List String),
      1 ≤ bits →
      values.length ≤ chunksize →
      (∀ p ∈ keys, p.2 ≠ -1) →
      (∀ p ∈ keys, -(2 ^ (bits - 1)) ≤ p.2 ∧ p.2 < 2 ^ (bits - 1)) →
      leaky_write_part true bits keys chunksize values
        = .ok (values.map (fun v => (keys.lookup v).getD (-1)),
               values.map (fun v => if keys.lookup v = none then v else ""))) ∧
    leaky_write_part true 8 [("foo", 0), ("bar", 1)] 8 ["foo", "baz", "bar"]
      = .ok ([0, -1, 1], ["", "baz", ""]) := by
  constructor
  · intro bits keys chunksize values hb h hkeys hrange
    rw [leaky_write_part_spec true bits keys chunksize values h]
    congr 1
    refine Prod.ext ?_ ?_
    · simp only
      apply List.map_congr_left
      intro v _
      rw [leakyCell_fst]
      cases hl : keys.lookup v with
      | none =>
        have hpos : (0 : Int) < 2 ^ (bits - 1) := by positivity
        simp only [Option.getD_none]
        exact dtypeStore_eq_self bits hb (-1) (by omega) (by omega)
      | some w =>
        obtain ⟨hw1, hw2⟩ := hrange (v, w) (mem_of_lookup_eq_some hl)
        simp only [Option.getD_some]
        exact dtypeStore_eq_self bits hb w hw1 hw2
    · simp only
      apply List.map_congr_left
      intro v _
      rw [leakyCell_snd]
      cases hl : keys.lookup v with
      | none => simp
      | some w =>
        have hw : w ≠ -1 := hkeys (v, w) (mem_of_lookup_eq_some hl)
        simp [hw]
  · rfl

/-- C6 counterexample.  With an int8 `value_type` and a key table that maps
`"x"` to `-1`, the cell `"x"` is mapped yet its literal text — not the
empty string — is routed to the freetext field, because the code cannot
distinguish a table hit of `-1` from the miss default. -/
theorem claim_C6_counterexample :
    List.lookup "x" [("x", (-1 : Int))] = some (-1) ∧
    leaky_write_part true 8 [("x", -1)] 8 ["x"] = .ok ([-1], ["x"]) ∧
    leaky_write_part true 8 [("x", -1)] 8 ["x"] ≠ .ok ([-1], [""]) := by
  refine ⟨rfl, rfl, ?_⟩
  intro h
  have hok : leaky_write_part true 8 [("x", -1)] 8 ["x"] = .ok ([-1], ["x"]) := rfl
  rw [hok] at h
  have h2 : (([-1], ["x"]) : List Int × List String) = ([-1], [""]) := Except.ok.inj h
  simp at h2

/-- C6 witness: the amended claim applied to the spec's own example with
the int8 dtype. -/
theorem claim_C6_witness :
    ((1 : Nat) ≤ 8) ∧
    ((["foo", "baz", "bar"] : List String).length ≤ 8) ∧
    (∀ p ∈ ([("foo", 0), ("bar", 1)] : List (String × Int)), p.2 ≠ -1) ∧
    (∀ p ∈ ([("foo", 0), ("bar", 1)] : List (String × Int)),
      -((2 : Int) ^ (8 - 1)) ≤ p.2 ∧ p.2 < (2 : Int) ^ (8 - 1)) ∧
    leaky_write_part true 8 [("foo", 0), ("bar", 1)] 8 ["foo", "baz", "bar"]
      = .ok ((["foo", "baz", "bar"] : List String).map
               (fun v => (([("foo", 0), ("bar", 1)] : List (String × Int)).lookup v).getD (-1)),
             (["foo", "baz", "bar"] : List String).map
               (fun v => if ([("foo", 0), ("bar", 1)] : List (String × Int)).lookup v = none
                 then v else "")) :=
  ⟨by decide, by decide, by decide, by decide,
   claim_C6.1 8 [("foo", 0), ("bar", 1)] 8 ["foo", "baz", "bar"]
     (by decide) (by decide) (by decide) (by decide)⟩

/-- `HDF5DataFrame` name → field mapping (dataframe.py lines 21-49), in
insertion order.  Field contents are irrelevant to name-keyed deletion, so
fields are identified by an opaque id; names are unique (dict keys). -/
structure HDF5DataFrame where
  columns : List (String × Nat)
  deriving DecidableEq, Repr

/-- `HDF5DataFrame.__contains__` (dataframe.py lines 157-166). -/
def HDF5DataFrame.contains (df : HDF5DataFrame) (name : String) : Bool :=
  (df.columns.map Prod.fst).contains name

/-- `HDF5DataFrame.__delitem__` (dataframe.py lines 227-232): an absent name
raises `ValueError` ("There is no field named ... in this dataframe") before
anything is touched, so the columns are unchanged; a present name is
removed from the backing group and the column mapping (`del` on a dict,
modelled as filtering the unique name out). -/
def HDF5DataFrame.delitem (df : HDF5DataFrame) (name : String) :
    Except PyErr HDF5DataFrame :=
  if ¬ df.contains name then .error .valueError
  else .ok ⟨df.columns.filter (fun p => p.1 ≠ name)⟩

/-- C9 (amended).  Deleting an absent name from a dataframe fails with a
`ValueError`-class error — not `KeyError` as claimed — and, the failure
being raised before any mutation, no successor dataframe is produced, so
the fields are unchanged. -/
theorem claim_C9 (df : HDF5DataFrame) (name : String)
    (h : df.contains name = false) :
    df.delitem name = .error .valueError ∧
    ∀ g : HDF5DataFrame, df.delitem name ≠ .ok g := by
  have hd : df.delitem name = .error .valueError := by
    unfold HDF5DataFrame.delitem
    rw [if_pos (by simp [h])]
  refine ⟨hd, ?_⟩
  intro g hcon
  rw [hd] at hcon
  exact Except.noConfusion hcon

/-- C9 counterexample.  On a dataframe holding one field `"a"`, deleting the
absent name `"x"` raises `ValueError`, which is not a `KeyError`-class
error. -/
theorem claim_C9_counterexample :
    HDF5DataFrame.delitem ⟨[("a", 0)]⟩ "x" = .error .valueError ∧
    PyErr.valueError ≠ PyErr.keyError := by
  exact ⟨rfl, by decide⟩

/-- C9 witness: the amended claim applied to a concrete dataframe. -/
theorem claim_C9_witness :
    (HDF5DataFrame.contains ⟨[("a", 0)]⟩ "x" = false) ∧
    (HDF5DataFrame.delitem ⟨[("a", 0)]⟩ "x" = .error .valueError ∧
     ∀ g : HDF5DataFrame, HDF5DataFrame.delitem ⟨[("a", 0)]⟩ "x" ≠ .ok g) :=
  ⟨by decide, claim_C9 ⟨[("a", 0)]⟩ "x" (by decide)⟩

/-- The persisted attributes and key-table arrays of a field group created
by the constructors of fields.py lines 304-355. -/
structure FieldGroup where
  chunksize : Nat
  timestamp : Nat
  fieldtype : String
  strlen : Option Nat
  nformat : Option String
  key_names : List String
  key_values : List Int
  deriving DecidableEq, Repr

/-- `base_field_contructor` (fields.py lines 304-316; source spelling kept):
a duplicate name raises `ValueError`; otherwise the group is created and
both the `chunksize` and the `timestamp` attributes are set to
`session.chunksize if chunksize is None else chunksize` (fields.py lines
314-315) — the `timestamp` argument is never read. -/
def base_field_contructor (sessionChunksize : Nat) (group : List String) (name : String)
    (_timestamp : Option Int) (chunksize : Option Nat) : Except PyErr FieldGroup :=
  if group.contains name then .error .valueError
  else .ok { chunksize := chunksize.getD sessionChunksize,
             timestamp := chunksize.getD sessionChunksize,
             fieldtype := "", strlen := none, nformat := none,
             key_names := [], key_values := [] }

/-- `indexed_string_field_constructor` (fields.py lines 319-323). -/
def indexed_string_field_constructor (s : Nat) (group : List String) (name : String)
    (timestamp : Option Int) (chunksize : Option Nat) : Except PyErr FieldGroup :=
  (base_field_contructor s group name timestamp chunksize).map
    (fun f => { f with fieldtype := "indexedstring" })

/-- `fixed_string_field_constructor` (fields.py lines 326-330). -/
def fixed_string_field_constructor (s : Nat) (group : List String) (name : String)
    (length : Nat) (timestamp : Option Int) (chunksize : Option Nat) :
    Except PyErr FieldGroup :=
  (base_field_contructor s group name timestamp chunksize).map
    (fun f => { f with fieldtype := "fixedstring," ++ toString length,
                       strlen := some length })

/-- `numeric_field_constructor` (fields.py lines 333-337). -/
def numeric_field_constructor (s : Nat) (group : List String) (name : String)
    (nformat : String) (timestamp : Option Int) (chunksize : Option Nat) :
    Except PyErr FieldGroup :=
  (base_field_contructor s group name timestamp chunksize).map
    (fun f => { f with fieldtype := "numeric," ++ nformat, nformat := some nformat })

/-- `categorical_field_constructor` (fields.py lines 340-349): also persists
the two parallel key-table arrays. -/
def categorical_field_constructor (s : Nat) (group : List String) (name : String)
    (nformat : String) (key : List (String × Int)) (timestamp : Option Int)
    (chunksize : Option Nat) : Except PyErr FieldGroup :=
  (base_field_contructor s group name timestamp chunksize).map
    (fun f => { f with fieldtype := "categorical," ++ nformat, nformat := some nformat,
                       key_values := key.map Prod.snd, key_names := key.map Prod.fst })

/-- `timestamp_field_constructor` (fields.py lines 352-355). -/
def timestamp_field_constructor (s : Nat) (group : List String) (name : String)
    (timestamp : Option Int) (chunksize : Option Nat) : Except PyErr FieldGroup :=
  (base_field_contructor s group name timestamp chunksize).map
    (fun f => { f with fieldtype := "timestamp" })

/-- `HDF5Field.timestamp` property (fields.py lines 32-34): reads the
persisted `timestamp` attribute. -/
def HDF5Field_timestamp (f : FieldGroup) : Nat := f.timestamp

/-- C10 (confirmed).  Every field constructor persists the `timestamp`
attribute as the chunk size — the session default when no `chunksize`
argument is given, else that argument — so the field's `timestamp` property
returns the chunk-size value (equal to the `chunksize` attribute), and the
`timestamp` argument passed at creation is ignored by every constructor. -/
theorem claim_C10 (s : Nat) (group : List String) (name : String)
    (length : Nat) (nformat : String) (key : List (String × Int))
    (ts ts2 : Option Int) (cs : Option Nat) (h : group.contains name = false) :
    ((indexed_string_field_constructor s group name ts cs).map
        (fun f => (HDF5Field_timestamp f, f.chunksize)) = .ok (cs.getD s, cs.getD s) ∧
     (fixed_string_field_constructor s group name length ts cs).map
        (fun f => (HDF5Field_timestamp f, f.chunksize)) = .ok (cs.getD s, cs.getD s) ∧
     (numeric_field_constructor s group name nformat ts cs).map
        (fun f => (HDF5Field_timestamp f, f.chunksize)) = .ok (cs.getD s, cs.getD s) ∧
     (categorical_field_constructor s group name nformat key ts cs).map
        (fun f => (HDF5Field_timestamp f, f.chunksize)) = .ok (cs.getD s, cs.getD s) ∧
     (timestamp_field_constructor s group name ts cs).map
        (fun f => (HDF5Field_timestamp f, f.chunksize)) = .ok (cs.getD s, cs.getD s)) ∧
    (indexed_string_field_constructor s group name ts cs
        = indexed_string_field_constructor s group name ts2 cs ∧
     fixed_string_field_constructor s group name length ts cs
        = fixed_string_field_constructor s group name length ts2 cs ∧
     numeric_field_constructor s group name nformat ts cs
        = numeric_field_constructor s group name nformat ts2 cs ∧
     categorical_field_constructor s group name nformat key ts cs
        = categorical_field_constructor s group name nformat key ts2 cs ∧
     timestamp_field_constructor s group name ts cs
        = timestamp_field_constructor s group name ts2 cs) := by
  have hbase : base_field_contructor s group name ts cs
      = .ok { chunksize := cs.getD s, timestamp := cs.getD s, fieldtype := "",
              strlen := none, nformat := none, key_names := [], key_values := [] } := by
    unfold base_field_contructor
    rw [if_neg (fun hc => by rw [h] at hc; exact Bool.noConfusion hc)]
  have hbase2 : base_field_contructor s group name ts2 cs
      = base_field_contructor s group name ts cs := rfl
  constructor
  · refine ⟨?_, ?_, ?_, ?_, ?_⟩ <;>
      simp [indexed_string_field_constructor, fixed_string_field_constructor,
        numeric_field_constructor, categorical_field_constructor,
        timestamp_field_constructor, hbase, Except.map, HDF5Field_timestamp]
  · exact ⟨rfl, rfl, rfl, rfl, rfl⟩

/-- C10 witness: a concrete numeric field created with an explicit
`timestamp=99` argument still reports `timestamp = chunksize = 7`. -/
theorem claim_C10_witness :
    (([] : List String).contains "f" = false) ∧
    ((numeric_field_constructor 5 [] "f" "int32" (some 99) (some 7)).map
        (fun f => (HDF5Field_timestamp f, f.chunksize)) = .ok (7, 7)) ∧
    (numeric_field_constructor 5 [] "f" "int32" (some 99) (some 7)
      = numeric_field_constructor 5 [] "f" "int32" (some 42) (some 7)) :=
  ⟨by decide,
   (claim_C10 5 [] "f" 0 "int32" [] (some 99) (some 42) (some 7) (by decide)).1.2.2.1,
   (claim_C10 5 [] "f" 0 "int32" [] (some 99) (some 42) (some 7) (by decide)).2.2.2.1⟩

/-- Binding of a Python call's arguments against a method's parameter list
(the implicit `self` excluded): more positional arguments than parameters,
an unknown keyword, or a keyword that also received a positional value all
raise `TypeError` at the call boundary, before the method body runs. -/
def bindCall (params : List String) (nPos : Nat) (kw : List String) : Except PyErr Unit :=
  if params.length < nPos then .error .typeError
  else if kw.any (fun k => !(params.contains k)) then .error .typeError
  else if kw.any (fun k => (params.take nPos).contains k) then .error .typeError
  else .ok ()

/-- Parameter list (after `self`) of `HDF5DataFrame.create_numeric`
(dataframe.py line 124). -/
def create_numeric_params : List String := ["name", "nformat", "timestamp", "chunksize"]

/-- Parameter list (after `self`) of `NumericField.apply_filter` and
`NumericField.apply_index` (fields.py lines 534 and 547; the other field
classes declare the same `(self, filter_to_apply/index_to_apply, dstfld)`
shape). -/
def apply_filter_params : List String := ["filter_to_apply", "dstfld"]

/-- `NumericField.create_like` (fields.py lines 514-517) invoked with a
dataframe as `group`: it calls `group.create_numeric(self._session, name,
nformat, ts, self.chunksize)` — five positional arguments against the
four-parameter `HDF5DataFrame.create_numeric`, a `TypeError`. -/
def numericCreateLikeOnDataFrame : Except PyErr Unit :=
  bindCall create_numeric_params 5 []

/-- `HDF5DataFrame.apply_filter` (dataframe.py lines 277-295) over a
dataframe of numeric fields, modelled at the argument-binding level up to
the first failure: with a destination it runs, for each field in insertion
order, `newfld = field.create_like(ddf, name)` and then
`field.apply_filter(filter_to_apply, target=newfld)`; without a
destination it runs `field.apply_filter(filter_to_apply, in_place=True)`.
(`HDF5DataFrame.apply_index`, dataframe.py lines 297-315, performs the same
calls with `apply_index`, whose parameter list is identical.) -/
def HDF5DataFrame.apply_filter_binding (df : HDF5DataFrame) (hasDest : Bool) :
    Except PyErr Unit :=
  match df.columns with
  | [] => .ok ()
  | _ :: _ =>
    if hasDest then
      match numericCreateLikeOnDataFrame with
      | .error e => .error e
      | .ok _ => bindCall apply_filter_params 1 ["target"]
    else bindCall apply_filter_params 1 ["in_place"]

/-- C4 (code bug).  `HDF5DataFrame.apply_filter` cannot run the per-field
fan-out the claim (and the repository's own tests,
tests/test_dataframe.py `test_apply_filter` and `test_dataframe_ops`)
describe: on any non-empty dataframe the destination path fails with
`TypeError` inside `field.create_like(ddf, name)` (five positional
arguments passed to the four-parameter `HDF5DataFrame.create_numeric`) and
would next fail on the unknown keyword `target=` of
`field.apply_filter`; the in-place path fails with `TypeError` on the
unknown keyword `in_place=` (fields.py defines
`apply_filter(self, filter_to_apply, dstfld=None)`). -/
theorem claim_C4 :
    HDF5DataFrame.apply_filter_binding ⟨[("numf", 0)]⟩ true = .error .typeError ∧
    HDF5DataFrame.apply_filter_binding ⟨[("numf", 0)]⟩ false = .error .typeError ∧
    bindCall apply_filter_params 1 ["target"] = .error .typeError ∧
    bindCall apply_filter_params 1 ["in_place"] = .error .typeError ∧
    bindCall apply_filter_params 1 ["dstfld"] = .ok () := by
  exact ⟨rfl, rfl, rfl, rfl, rfl⟩

/-- The field-mapping phase of `dataframe.merge` (dataframe.py lines
377-412), modelled at the argument-binding level up to the first failure:
for every requested right-side field the first statement executed is
`d = r.create_like(dest, dest_f)` (line 385), and symmetrically for
left-side fields (line 402); the key extraction and `pd.merge` probe that
precede it bind correctly and never depend on whether keys match. -/
def merge_map_fields (right_fields left_fields : List String) : Except PyErr Unit :=
  match right_fields with
  | _ :: _ => numericCreateLikeOnDataFrame
  | [] =>
    match left_fields with
    | _ :: _ => numericCreateLikeOnDataFrame
    | [] => .ok ()

/-- C5 (code bug).  `merge` cannot reach the validity-mask materialisation
the claim describes: for any requested field on either side (and by
default all fields of both frames are requested) the very first per-field
statement `d = r.create_like(dest, dest_f)` raises `TypeError` — the
field's `create_like` passes the session as an extra positional argument
to the destination dataframe's four-parameter `create_numeric` — so no
merge call that maps at least one field completes, matched keys or not. -/
theorem claim_C5 :
    merge_map_fields ["b"] ["a"] = .error .typeError ∧
    merge_map_fields [] ["a"] = .error .typeError ∧
    numericCreateLikeOnDataFrame = .error .typeError := by
  exact ⟨rfl, rfl, rfl⟩
